import Mathlib

/-!
Verification of the idp-octelium-sync repository: a shallow embedding of its
group-mapping resolver, glob-based user filter, mapping-file validation,
aggregate membership lookup and manifest renderers, followed by theorems
settling the specified properties.
-/

namespace IdpSync

/-- One configured group entry in the mapping table
(`GroupMappingEntry` in src/mapping/loader.ts). All fields are optional. -/
structure GroupMappingEntry where
  octeliumGroup : Option String
  displayName : Option String
  policies : Option (List String)
  sync : Option Bool
deriving Repr, DecidableEq

/-- The optional `defaults` block (`MappingDefaults` in src/mapping/loader.ts).
The `unmappedGroups` value comes from an unchecked YAML cast at runtime, so it
is modelled as an arbitrary string; the resolver's switch has a default case. -/
structure MappingDefaults where
  unmappedGroups : Option String
  defaultPolicies : Option (List String)
deriving Repr, DecidableEq

/-- A parsed mapping document (`GroupMapping` in src/mapping/loader.ts).
The `groups` record is modelled as an association list keyed by raw group
name; JavaScript object keys are unique, lookup takes the first match. -/
structure GroupMapping where
  groups : List (String × GroupMappingEntry)
  defaults : Option MappingDefaults
deriving Repr, DecidableEq

/-- Lookup in a JavaScript-object-as-record, e.g. `this.mapping.groups[name]`. -/
def recordGet {α : Type} : List (String × α) → String → Option α
  | [], _ => none
  | (k, v) :: rest, key => if k = key then some v else recordGet rest key

/-- Output of resolution (`ResolvedGroupMapping` in src/mapping/loader.ts). -/
structure ResolvedGroupMapping where
  octeliumGroup : String
  displayName : String
  policies : List String
  sync : Bool
deriving Repr, DecidableEq

/-- The defaults after the constructor has filled them in
(`Required<MappingDefaults>` in src/mapping/loader.ts). -/
structure RequiredMappingDefaults where
  unmappedGroups : String
  defaultPolicies : List String
deriving Repr, DecidableEq

/-- State of a constructed `MappingLoader` (class in src/mapping/loader.ts). -/
structure MappingLoader where
  mapping : GroupMapping
  defaults : RequiredMappingDefaults
deriving Repr, DecidableEq

/-- The `MappingLoader` constructor: stores the mapping and fills in the
defaults (`unmappedGroups ?? "skip"`, `defaultPolicies ?? []`). -/
def MappingLoader.ofMapping (m : GroupMapping) : MappingLoader :=
  { mapping := m
    defaults :=
      { unmappedGroups := ((m.defaults.bind (·.unmappedGroups)).getD "skip")
        defaultPolicies := ((m.defaults.bind (·.defaultPolicies)).getD []) } }

/-- A parsed mapping document before validation (the `parseYaml` result in
`MappingLoader.fromFile`, src/mapping/loader.ts): the `groups` key may be
absent or null, which the code checks for. -/
structure RawMappingDoc where
  groups : Option (List (String × GroupMappingEntry))
  defaults : Option MappingDefaults
deriving Repr, DecidableEq

/-- The validation and construction performed by `MappingLoader.fromFile`
(src/mapping/loader.ts) once the YAML text has been parsed: a document
without a `groups` table is rejected with an error before any loader (and
hence any resolution) exists; otherwise the loader is constructed. -/
def MappingLoader.fromParsed (doc : RawMappingDoc) : Except String MappingLoader :=
  match doc.groups with
  | none => .error "Invalid mapping file: missing groups key"
  | some gs => .ok (MappingLoader.ofMapping ⟨gs, doc.defaults⟩)

/-- Method `MappingLoader.resolveGroup` from src/mapping/loader.ts: resolve an IdP
group name to its Octelium mapping, or `none` if the group is skipped. -/
def MappingLoader.resolveGroup (L : MappingLoader) (idpGroupName : String) :
    Option ResolvedGroupMapping :=
  match recordGet L.mapping.groups idpGroupName with
  | some entry =>
    -- Check if explicitly disabled
    if entry.sync = some false then
      none
    else
      some
        { octeliumGroup := entry.octeliumGroup.getD idpGroupName
          displayName := entry.displayName.getD idpGroupName
          policies := entry.policies.getD L.defaults.defaultPolicies
          sync := entry.sync.getD true }
  | none =>
    -- Group not in mapping - apply default behavior
    match L.defaults.unmappedGroups with
    | "skip" => none
    | "include" =>
      some
        { octeliumGroup := idpGroupName
          displayName := idpGroupName
          policies := L.defaults.defaultPolicies
          sync := true }
    | "include-no-policies" =>
      some
        { octeliumGroup := idpGroupName
          displayName := idpGroupName
          policies := []
          sync := true }
    | _ => none

/-- Method `MappingLoader.getDefinedGroups` from src/mapping/loader.ts. -/
def MappingLoader.getDefinedGroups (L : MappingLoader) : List String :=
  L.mapping.groups.map (·.1)

/-- One compiled token of a glob pattern: literal character, `?`, `*`, or a
character class (negation flag and list of inclusive character ranges). -/
inductive GlobToken where
  | star : GlobToken
  | question : GlobToken
  | lit : Char → GlobToken
  | cls : Bool → List (Char × Char) → GlobToken
deriving Repr, DecidableEq

/-- Modelled from the spec: body parser for a POSIX-glob character class,
part of the external `minimatch` library used by `shouldExcludeUser` (the
library's source is not in the repository). Reads range items (`a-b`) and
single characters up to the closing `]`; `none` if the class is
unterminated. -/
def parseClassItems : List Char → Option (List (Char × Char) × List Char)
  | [] => none
  | ']' :: rest => some ([], rest)
  | a :: '-' :: b :: rest =>
    if b = ']' then some ([(a, a), ('-', '-')], rest)
    else (parseClassItems rest).map (fun q => ((a, b) :: q.1, q.2))
  | a :: rest => (parseClassItems rest).map (fun q => ((a, a) :: q.1, q.2))

/-- Modelled from the spec: class parser of the `minimatch` glob matcher.
Takes the characters after `[`; a leading `!` negates the class, and a `]`
in first position is a literal member. -/
def parseClass (p : List Char) : Option (Bool × List (Char × Char) × List Char) :=
  match p with
  | '!' :: ']' :: rest =>
    (parseClassItems rest).map (fun q => (true, (']', ']') :: q.1, q.2))
  | '!' :: rest =>
    (parseClassItems rest).map (fun q => (true, q.1, q.2))
  | ']' :: rest =>
    (parseClassItems rest).map (fun q => (false, (']', ']') :: q.1, q.2))
  | rest =>
    (parseClassItems rest).map (fun q => (false, q.1, q.2))

/-- Modelled from the spec: pattern compiler of the `minimatch` glob matcher
(shell-glob semantics: `*`, `?`, character classes as in POSIX glob). An
unterminated `[` is a literal character. Structural recursion on a fuel
argument keeps the definition kernel-evaluable; `tokenize` below supplies
fuel that is always sufficient (the class parser only ever returns a proper
suffix of its input), so the fuel-exhausted branch is dead code. -/
def tokenizeFuel : Nat → List Char → List GlobToken
  | 0, _ => []
  | _ + 1, [] => []
  | fuel + 1, '*' :: ps => .star :: tokenizeFuel fuel ps
  | fuel + 1, '?' :: ps => .question :: tokenizeFuel fuel ps
  | fuel + 1, '[' :: ps =>
    match parseClass ps with
    | some (neg, items, rest) => .cls neg items :: tokenizeFuel fuel rest
    | none => .lit '[' :: tokenizeFuel fuel ps
  | fuel + 1, c :: ps => .lit c :: tokenizeFuel fuel ps

/-- Compile a glob pattern, with fuel covering the whole pattern. -/
def tokenize (l : List Char) : List GlobToken :=
  tokenizeFuel l.length l

/-- Membership of a character in a class given by inclusive ranges. -/
def inClass (items : List (Char × Char)) (c : Char) : Bool :=
  items.any (fun ab => ab.1 ≤ c && c ≤ ab.2)

/-- Modelled from the spec: the matcher of compiled glob tokens against the
characters of a string — `*` matches any (possibly empty) run, `?` any single
character, a class any single character it contains (or does not contain,
when negated). Fueled for the same reason as `tokenizeFuel`; the measure
`tokens + characters` shrinks at every recursive call, so the fuel supplied
by `globMatchT` never runs out. -/
def globMatchFuel : Nat → List GlobToken → List Char → Bool
  | 0, _, _ => false
  | _ + 1, [], [] => true
  | _ + 1, [], _ :: _ => false
  | f + 1, .star :: ps, [] => globMatchFuel f ps []
  | f + 1, .star :: ps, c :: cs =>
    globMatchFuel f ps (c :: cs) || globMatchFuel f (.star :: ps) cs
  | _ + 1, .question :: _, [] => false
  | f + 1, .question :: ps, _ :: cs => globMatchFuel f ps cs
  | _ + 1, .lit _ :: _, [] => false
  | f + 1, .lit a :: ps, c :: cs => (a == c) && globMatchFuel f ps cs
  | _ + 1, .cls _ _ :: _, [] => false
  | f + 1, .cls neg items :: ps, c :: cs =>
    (inClass items c != neg) && globMatchFuel f ps cs

/-- Match compiled tokens against a character list, with sufficient fuel. -/
def globMatchT (p : List GlobToken) (s : List Char) : Bool :=
  globMatchFuel (p.length + s.length + 1) p s

/-- Modelled from the spec: `minimatch(str, pattern)` of the external
`minimatch` library used by `shouldExcludeUser` — true iff the string
matches the glob pattern. -/
def minimatch (str pattern : String) : Bool :=
  globMatchT (tokenize pattern.toList) str.toList

/-- Function `shouldExcludeUser` from src/mapping/loader.ts: loop over the exclude
patterns, returning true on the first one matching the username. -/
def shouldExcludeUser (username : String) : List String → Bool
  | [] => false
  | pat :: rest =>
    if minimatch username pat then true else shouldExcludeUser username rest

/-- A user record fetched from the provider (`User` in
src/providers/provider.ts). -/
structure User where
  id : String
  username : String
  email : String
  enabled : Bool
  firstName : Option String
  lastName : Option String
deriving Repr, DecidableEq

/-- A group record fetched from the provider (`Group` in
src/providers/provider.ts). -/
structure Group where
  id : String
  name : String
  path : Option String
deriving Repr, DecidableEq

/-- A user together with the names of the groups it belongs to
(`UserWithGroups` in src/providers/provider.ts). -/
structure UserWithGroups extends User where
  groups : List String
deriving Repr, DecidableEq

/-- JavaScript `String.prototype.split(",")` on the character list: split on
every comma; the empty string yields one empty segment. -/
def splitOnComma : List Char → List (List Char)
  | [] => [[]]
  | c :: rest =>
    match splitOnComma rest with
    | [] => [[c]]
    | seg :: segs => if c = ',' then [] :: seg :: segs else (c :: seg) :: segs

/-- Whitespace for trimming purposes. -/
def isSpaceChar (c : Char) : Bool :=
  c = ' ' || c = '\t' || c = '\n' || c = '\r'

/-- JavaScript `String.prototype.trim` on the character list. -/
def trimChars (l : List Char) : List Char :=
  ((l.dropWhile isSpaceChar).reverse.dropWhile isSpaceChar).reverse

/-- The exclude-pattern preprocessing in `runSync` (src/index.ts): split the
raw `--exclude-users` value on commas, trim each segment, drop empty
segments. -/
def effectivePatterns (excludeUsers : String) : List String :=
  (((splitOnComma excludeUsers.toList).map (fun seg => String.mk (trimChars seg))).filter
    (fun p => p.length > 0))

/-- The user filter in `runSync` (src/index.ts): drop disabled users, then
drop users whose username matches an exclude pattern. -/
def filterUsers (usersWithGroups : List UserWithGroups) (excludeUsers : String) :
    List UserWithGroups :=
  usersWithGroups.filter (fun u =>
    if !u.enabled then false
    else if shouldExcludeUser u.username (effectivePatterns excludeUsers) then false
    else true)

/-- Append a group name to the membership list of every user id present in
the map (`userGroupsMap.get(member.id)` followed by `push(group.name)` in
`KeycloakProvider.getUsersWithGroups`, src/providers/keycloak.ts); member
ids absent from the map are ignored. -/
def pushGroupName (m : List (String × List String)) (uid gname : String) :
    List (String × List String) :=
  m.map (fun p => if p.1 = uid then (p.1, p.2 ++ [gname]) else p)

/-- Record one fetched member list in the map. -/
def addMembers (m : List (String × List String)) (gname : String)
    (members : List User) : List (String × List String) :=
  members.foldl (fun acc mem => pushGroupName acc mem.id gname) m

/-- The per-group loop of `KeycloakProvider.getUsersWithGroups`
(src/providers/keycloak.ts): a failed member fetch logs a warning and leaves
the map unchanged; a successful fetch records every member. -/
def processGroups : List (String × List String) → List Group →
    (String → Except String (List User)) → List (String × List String)
  | m, [], _ => m
  | m, g :: rest, listMembers =>
    processGroups
      (match listMembers g.id with
        | .ok members => addMembers m g.name members
        | .error _ => m)
      rest listMembers

/-- Method `KeycloakProvider.getUsersWithGroups` (src/providers/keycloak.ts), with
the network abstracted as already-fetched `users` and `groups` lists and a
`listMembers` oracle for the per-group member listing. -/
def getUsersWithGroups (users : List User) (groups : List Group)
    (listMembers : String → Except String (List User)) : List UserWithGroups :=
  let m := processGroups (users.map (fun u => (u.id, ([] : List String)))) groups listMembers
  users.map (fun u => ⟨u, (recordGet m u.id).getD []⟩)

/-- A rendered Octelium group (`OcteliumGroup` in src/octelium/types.ts),
restricted to the fields the renderer fills. -/
structure OcteliumGroup where
  name : String
  displayName : String
  policies : List String
deriving Repr, DecidableEq

/-- A rendered Octelium user (`OcteliumUser` in src/octelium/types.ts),
restricted to the fields the renderer fills. -/
structure OcteliumUser where
  name : String
  userType : String
  email : String
  groups : List String
deriving Repr, DecidableEq

/-- Modelled from the spec: the groups renderer (`generateGroupsYaml`,
imported by src/index.ts from the src/octelium module whose implementation
file is not in the repository). For each raw group the resolver is invoked;
groups resolving to absent are omitted from the document and from the
returned raw-name map. -/
def renderGroups (L : MappingLoader) :
    List Group → List OcteliumGroup × List (String × ResolvedGroupMapping)
  | [] => ([], [])
  | g :: rest =>
    match L.resolveGroup g.name with
    | none => renderGroups L rest
    | some r =>
      (⟨r.octeliumGroup, r.displayName, r.policies⟩ :: (renderGroups L rest).1,
        (g.name, r) :: (renderGroups L rest).2)

/-- Modelled from the spec: the users renderer (`generateUsersYaml`, same
missing src/octelium module). Each user's raw group names are translated
through the resolved-groups map; raw names with no entry are dropped; the
type is fixed HUMAN and the email flows through unchanged. -/
def renderUsers (users : List UserWithGroups)
    (resolved : List (String × ResolvedGroupMapping)) : List OcteliumUser :=
  users.map (fun u =>
    ⟨u.username, "HUMAN", u.email,
      u.groups.filterMap (fun g => (recordGet resolved g).map (·.octeliumGroup))⟩)

/-! Helper lemmas shared by the claim theorems. -/

theorem ofMapping_groups (M : GroupMapping) :
    (MappingLoader.ofMapping M).mapping.groups = M.groups := rfl

theorem recordGet_mem {α : Type} (gs : List (String × α)) (k : String) (v : α)
    (h : recordGet gs k = some v) : (k, v) ∈ gs := by
  induction gs with
  | nil => simp [recordGet] at h
  | cons p rest ih =>
    obtain ⟨pk, pv⟩ := p
    unfold recordGet at h
    by_cases hk : pk = k
    · rw [if_pos hk] at h
      subst hk
      obtain rfl := Option.some.inj h
      exact List.mem_cons_self _ _
    · rw [if_neg hk] at h
      exact List.mem_cons_of_mem _ (ih h)

theorem shouldExcludeUser_iff (u : String) (P : List String) :
    shouldExcludeUser u P = true ↔ ∃ p ∈ P, minimatch u p = true := by
  induction P with
  | nil => simp [shouldExcludeUser]
  | cons q rest ih =>
    by_cases h : minimatch u q = true
    · simp [shouldExcludeUser, h]
    · simp only [shouldExcludeUser, if_neg h, ih]
      constructor
      · rintro ⟨p, hp, hm⟩
        exact ⟨p, List.mem_cons_of_mem _ hp, hm⟩
      · rintro ⟨p, hp, hm⟩
        rcases List.mem_cons.mp hp with rfl | hp'
        · exact absurd hm h
        · exact ⟨p, hp', hm⟩

example : minimatch "svc-batch" "svc-*" = true := by decide
example : minimatch "svc" "svc-*" = false := by decide
example : minimatch "abc" "a?c" = true := by decide
example : minimatch "adm1" "adm[0-9]" = true := by decide
example : minimatch "admx" "adm[0-9]" = false := by decide
example : minimatch "admx" "adm[!0-9]" = true := by decide

/-! Claim theorems. -/

/-- C1: for a raw group name present in the mapping table whose sync flag is
not explicitly false, `resolveGroup` returns a `ResolvedGroupMapping` whose
target name is the entry's `octeliumGroup` if given else the raw name, whose
display name is the entry's `displayName` if given else the raw name, whose
policy list is the entry's `policies` if given else the configured default
policy list, and whose sync flag is `true`. -/
theorem resolveGroup_mapped (M : GroupMapping) (G : String) (e : GroupMappingEntry)
    (hfound : recordGet M.groups G = some e) (hsync : e.sync ≠ some false) :
    (MappingLoader.ofMapping M).resolveGroup G =
      some
        { octeliumGroup := e.octeliumGroup.getD G
          displayName := e.displayName.getD G
          policies := e.policies.getD (MappingLoader.ofMapping M).defaults.defaultPolicies
          sync := true } := by
  unfold MappingLoader.resolveGroup
  rw [ofMapping_groups, hfound]
  simp only [hsync, if_neg]
  have hs : e.sync.getD true = true := by
    cases h : e.sync with
    | none => rfl
    | some b =>
      cases b with
      | false => exact absurd h hsync
      | true => rfl
  simp [hs]

theorem resolveGroup_mapped_witness :
    recordGet (GroupMapping.mk [("admins", ⟨some "administrators", none, some ["admin-policy"], none⟩)] none).groups "admins" =
      some ⟨some "administrators", none, some ["admin-policy"], none⟩ ∧
    (MappingLoader.ofMapping (GroupMapping.mk [("admins", ⟨some "administrators", none, some ["admin-policy"], none⟩)] none)).resolveGroup "admins" =
      some ⟨"administrators", "admins", ["admin-policy"], true⟩ := by
  refine ⟨by decide, ?_⟩
  rw [resolveGroup_mapped (GroupMapping.mk [("admins", ⟨some "administrators", none, some ["admin-policy"], none⟩)] none)
    "admins" ⟨some "administrators", none, some ["admin-policy"], none⟩ (by decide) (by decide)]
  rfl

/-- C2: for a raw group name absent from the mapping table, `resolveGroup`
follows the configured unmapped-groups policy: `include` yields the raw name
as target and display name with the default policy list and sync true,
`include-no-policies` yields the same with an empty policy list, and any
other value — `skip` (the filled-in default when no policy is configured) or
an unrecognized string — yields absent. -/
theorem resolveGroup_unmapped (M : GroupMapping) (G : String)
    (hmiss : recordGet M.groups G = none) :
    ((MappingLoader.ofMapping M).resolveGroup G =
      (if (MappingLoader.ofMapping M).defaults.unmappedGroups = "include" then
        some ⟨G, G, (MappingLoader.ofMapping M).defaults.defaultPolicies, true⟩
      else if (MappingLoader.ofMapping M).defaults.unmappedGroups = "include-no-policies" then
        some ⟨G, G, [], true⟩
      else none)) ∧
    (M.defaults = none → (MappingLoader.ofMapping M).defaults.unmappedGroups = "skip") := by
  constructor
  · unfold MappingLoader.resolveGroup
    rw [ofMapping_groups, hmiss]
    generalize (MappingLoader.ofMapping M).defaults.unmappedGroups = u
    split <;> simp_all
    split <;> simp_all
  · intro hd
    simp [MappingLoader.ofMapping, hd]

theorem resolveGroup_unmapped_witness :
    recordGet (GroupMapping.mk [] (some ⟨some "include", some ["p1"]⟩)).groups "guests" = none ∧
    (MappingLoader.ofMapping (GroupMapping.mk [] (some ⟨some "include", some ["p1"]⟩))).resolveGroup "guests" =
      some ⟨"guests", "guests", ["p1"], true⟩ := by
  refine ⟨by decide, ?_⟩
  have h := (resolveGroup_unmapped (GroupMapping.mk [] (some ⟨some "include", some ["p1"]⟩)) "guests" (by decide)).1
  simpa using h

/-- C3: whenever the entry for a raw group name explicitly sets sync to
false, `resolveGroup` returns absent, regardless of the entry's other fields
and of the configured defaults. -/
theorem resolveGroup_sync_false (M : GroupMapping) (G : String) (e : GroupMappingEntry)
    (hfound : recordGet M.groups G = some e) (hsync : e.sync = some false) :
    (MappingLoader.ofMapping M).resolveGroup G = none := by
  unfold MappingLoader.resolveGroup
  rw [ofMapping_groups, hfound]
  simp [hsync]

theorem resolveGroup_sync_false_witness :
    recordGet (GroupMapping.mk [("legacy", ⟨some "t", some "d", some ["p"], some false⟩)]
        (some ⟨some "include", some ["q"]⟩)).groups "legacy" =
      some ⟨some "t", some "d", some ["p"], some false⟩ ∧
    (MappingLoader.ofMapping (GroupMapping.mk [("legacy", ⟨some "t", some "d", some ["p"], some false⟩)]
        (some ⟨some "include", some ["q"]⟩))).resolveGroup "legacy" = none := by
  exact ⟨by decide,
    resolveGroup_sync_false (GroupMapping.mk [("legacy", ⟨some "t", some "d", some ["p"], some false⟩)]
      (some ⟨some "include", some ["q"]⟩)) "legacy" ⟨some "t", some "d", some ["p"], some false⟩
      (by decide) rfl⟩

/-- C10: resolution of a raw group name depends only on the mapping's entry
for that name (or its absence) and on the defaults block: two mappings that
agree on the entry for `G` and on their defaults resolve `G` identically. -/
theorem resolveGroup_local (M₁ M₂ : GroupMapping) (G : String)
    (hentry : recordGet M₁.groups G = recordGet M₂.groups G)
    (hdef : M₁.defaults = M₂.defaults) :
    (MappingLoader.ofMapping M₁).resolveGroup G =
      (MappingLoader.ofMapping M₂).resolveGroup G := by
  unfold MappingLoader.resolveGroup
  have hreq : (MappingLoader.ofMapping M₁).defaults = (MappingLoader.ofMapping M₂).defaults := by
    simp [MappingLoader.ofMapping, hdef]
  rw [show (MappingLoader.ofMapping M₁).mapping = M₁ from rfl,
    show (MappingLoader.ofMapping M₂).mapping = M₂ from rfl, hentry, hreq]

theorem resolveGroup_local_witness :
    recordGet (GroupMapping.mk [("a", ⟨none, none, none, none⟩)] none).groups "a" =
      recordGet (GroupMapping.mk [("a", ⟨none, none, none, none⟩), ("b", ⟨some "x", none, none, none⟩)] none).groups "a" ∧
    (GroupMapping.mk [("a", ⟨none, none, none, none⟩)] none).defaults =
      (GroupMapping.mk [("a", ⟨none, none, none, none⟩), ("b", ⟨some "x", none, none, none⟩)] none).defaults ∧
    (MappingLoader.ofMapping (GroupMapping.mk [("a", ⟨none, none, none, none⟩)] none)).resolveGroup "a" =
      (MappingLoader.ofMapping (GroupMapping.mk [("a", ⟨none, none, none, none⟩), ("b", ⟨some "x", none, none, none⟩)] none)).resolveGroup "a" := by
  exact ⟨by decide, rfl,
    resolveGroup_local (GroupMapping.mk [("a", ⟨none, none, none, none⟩)] none)
      (GroupMapping.mk [("a", ⟨none, none, none, none⟩), ("b", ⟨some "x", none, none, none⟩)] none)
      "a" (by decide) rfl⟩

/-- C5 counterexample: a mapping entry may explicitly configure an empty
target name (`octeliumGroup: ""`); `??` keeps it, so `resolveGroup` returns
a resolved group whose target name is the empty string. -/
theorem resolveGroup_empty_target_cex :
    ((MappingLoader.ofMapping
      (GroupMapping.mk [("g", ⟨some "", none, none, none⟩)] none)).resolveGroup "g").map
        (·.octeliumGroup) = some "" := rfl

/-- C5 (amended): whenever `resolveGroup` is not absent, the target name is
the entry's `octeliumGroup` when given else the raw name; in particular it is
non-empty provided the raw name is non-empty and every configured target name
in the mapping is non-empty (the code does not reject an explicitly empty
configured target name). -/
theorem resolveGroup_target_nonempty (M : GroupMapping) (G : String) (r : ResolvedGroupMapping)
    (h : (MappingLoader.ofMapping M).resolveGroup G = some r)
    (hG : G ≠ "")
    (hM : ∀ p ∈ M.groups, ∀ t, p.2.octeliumGroup = some t → t ≠ "") :
    r.octeliumGroup ≠ "" ∧
    (∀ e, recordGet M.groups G = some e → e.octeliumGroup = none → r.octeliumGroup = G) := by
  unfold MappingLoader.resolveGroup at h
  rw [ofMapping_groups] at h
  cases hrec : recordGet M.groups G with
  | some e =>
    rw [hrec] at h
    dsimp only at h
    by_cases hs : e.sync = some false
    · rw [if_pos hs] at h; exact absurd h (by simp)
    · rw [if_neg hs] at h
      obtain rfl := Option.some.inj h
      constructor
      · cases ho : e.octeliumGroup with
        | none => simpa [ho] using hG
        | some t =>
          have ht := hM (G, e) (recordGet_mem M.groups G e hrec) t ho
          simpa [ho] using ht
      · intro e' he' hnone
        obtain rfl := Option.some.inj he'
        simp [hnone]
  | none =>
    rw [hrec] at h
    dsimp only at h
    refine ⟨?_, fun e' he' _ => absurd he' (by simp)⟩
    split at h
    · exact absurd h (by simp)
    · obtain rfl := Option.some.inj h; exact hG
    · obtain rfl := Option.some.inj h; exact hG
    · exact absurd h (by simp)

theorem resolveGroup_target_nonempty_witness :
    (MappingLoader.ofMapping (GroupMapping.mk [("g", ⟨none, some "Dev", none, none⟩)] none)).resolveGroup "g" =
      some ⟨"g", "Dev", [], true⟩ ∧
    ("g" : String) ≠ "" ∧
    (⟨"g", "Dev", [], true⟩ : ResolvedGroupMapping).octeliumGroup ≠ "" := by
  refine ⟨rfl, by decide, ?_⟩
  exact (resolveGroup_target_nonempty (GroupMapping.mk [("g", ⟨none, some "Dev", none, none⟩)] none)
    "g" ⟨"g", "Dev", [], true⟩ rfl (by decide)
    (fun p hp t ht => by
      simp only [List.mem_singleton] at hp
      rw [hp] at ht
      exact absurd ht (by simp))).1

/-- C6: `shouldExcludeUser` returns false on the empty pattern list, and in
general returns true iff at least one pattern in the list matches the
username under the modelled glob semantics. -/
theorem shouldExcludeUser_spec (u : String) (P : List String) :
    shouldExcludeUser u [] = false ∧
    (shouldExcludeUser u P = true ↔ ∃ p ∈ P, minimatch u p = true) :=
  ⟨rfl, shouldExcludeUser_iff u P⟩

/-- C7: the effective pattern list is the comma-split, trimmed,
empty-filtered form of the raw exclude-users option; a fetched user is in
the filtered set iff it is among the fetched users, its enabled flag is
true, and its username matches none of the effective patterns — so a
disabled user is excluded regardless of the patterns. -/
theorem filterUsers_spec (users : List UserWithGroups) (s : String) (u : UserWithGroups) :
    (u ∈ filterUsers users s ↔
      u ∈ users ∧ u.enabled = true ∧
        ∀ p ∈ effectivePatterns s, minimatch u.username p = false) ∧
    (u.enabled = false → u ∉ filterUsers users s) := by
  have hpred : ∀ v : UserWithGroups,
      ((if !v.enabled then false
        else if shouldExcludeUser v.username (effectivePatterns s) then false
        else true) = true)
        ↔ (v.enabled = true ∧ shouldExcludeUser v.username (effectivePatterns s) = false) := by
    intro v
    by_cases h1 : v.enabled <;>
      by_cases h2 : shouldExcludeUser v.username (effectivePatterns s) <;>
        simp [h1, h2]
  have hnone : shouldExcludeUser u.username (effectivePatterns s) = false ↔
      ∀ p ∈ effectivePatterns s, minimatch u.username p = false := by
    rw [← Bool.not_eq_true, shouldExcludeUser_iff]
    constructor
    · intro hne p hp
      by_contra hmp
      exact hne ⟨p, hp, by simpa using hmp⟩
    · rintro hall ⟨p, hp, hm⟩
      have := hall p hp
      rw [this] at hm
      exact Bool.false_ne_true hm
  constructor
  · rw [filterUsers, List.mem_filter, hpred u, hnone]
  · intro hdis hmem
    rw [filterUsers, List.mem_filter] at hmem
    have := ((hpred u).mp hmem.2).1
    rw [hdis] at this
    exact Bool.false_ne_true this

theorem filterUsers_spec_witness :
    (⟨⟨"1", "alice", "a@x", true, none, none⟩, ["admins"]⟩ : UserWithGroups) ∈
      filterUsers
        [⟨⟨"1", "alice", "a@x", true, none, none⟩, ["admins"]⟩,
         ⟨⟨"2", "bob", "b@x", false, none, none⟩, []⟩,
         ⟨⟨"3", "svc-batch", "s@x", true, none, none⟩, []⟩]
        "svc-*, ," ∧
    (⟨⟨"2", "bob", "b@x", false, none, none⟩, []⟩ : UserWithGroups) ∉
      filterUsers
        [⟨⟨"1", "alice", "a@x", true, none, none⟩, ["admins"]⟩,
         ⟨⟨"2", "bob", "b@x", false, none, none⟩, []⟩,
         ⟨⟨"3", "svc-batch", "s@x", true, none, none⟩, []⟩]
        "svc-*, ," := by
  constructor
  · exact (filterUsers_spec
      [⟨⟨"1", "alice", "a@x", true, none, none⟩, ["admins"]⟩,
       ⟨⟨"2", "bob", "b@x", false, none, none⟩, []⟩,
       ⟨⟨"3", "svc-batch", "s@x", true, none, none⟩, []⟩]
      "svc-*, ," ⟨⟨"1", "alice", "a@x", true, none, none⟩, ["admins"]⟩).1.mpr
      ⟨by decide, rfl, by decide⟩
  · exact (filterUsers_spec
      [⟨⟨"1", "alice", "a@x", true, none, none⟩, ["admins"]⟩,
       ⟨⟨"2", "bob", "b@x", false, none, none⟩, []⟩,
       ⟨⟨"3", "svc-batch", "s@x", true, none, none⟩, []⟩]
      "svc-*, ," ⟨⟨"2", "bob", "b@x", false, none, none⟩, []⟩).2 rfl

/-- C8: loading the parsed mapping document fails with an error exactly when
it lacks a `groups` table; any document with a `groups` table — including an
empty one — constructs a loader (the error is produced instead of a loader,
so no resolution can precede it). -/
theorem fromParsed_spec (doc : RawMappingDoc) :
    ((∃ msg, MappingLoader.fromParsed doc = .error msg) ↔ doc.groups = none) ∧
    (∀ gs, doc.groups = some gs →
      MappingLoader.fromParsed doc = .ok (MappingLoader.ofMapping ⟨gs, doc.defaults⟩)) := by
  cases hg : doc.groups <;> simp [MappingLoader.fromParsed, hg]

theorem fromParsed_spec_witness :
    MappingLoader.fromParsed ⟨some [], none⟩ =
      .ok (MappingLoader.ofMapping ⟨[], none⟩) ∧
    (∃ msg, MappingLoader.fromParsed ⟨none, some ⟨some "include", none⟩⟩ = .error msg) :=
  ⟨(fromParsed_spec ⟨some [], none⟩).2 [] rfl,
    (fromParsed_spec ⟨none, some ⟨some "include", none⟩⟩).1.mpr rfl⟩

theorem processGroups_congr (lm lm' : String → Except String (List User))
    (gs : List Group) (m : List (String × List String))
    (h : ∀ g ∈ gs, lm' g.id = lm g.id ∨
      ((∃ e, lm g.id = .error e) ∧ lm' g.id = .ok [])) :
    processGroups m gs lm = processGroups m gs lm' := by
  induction gs generalizing m with
  | nil => rfl
  | cons g rest ih =>
    have hg := h g (List.mem_cons_self _ _)
    have hrest := fun g' hg' => h g' (List.mem_cons_of_mem g hg')
    simp only [processGroups]
    rcases hg with heq | ⟨⟨e, herr⟩, hok⟩
    · rw [heq]
      exact ih _ hrest
    · rw [herr, hok]
      exact ih _ hrest

/-- C9: the aggregate lookup tolerates per-group member-fetch failures: if
one oracle fails on some groups where another returns an empty member list
(and they agree elsewhere), the two lookups return identical results — so a
failing group contributes no memberships while every other group's
contributions are unchanged; and the returned list carries exactly the
fetched users, so no user is dropped. -/
theorem getUsersWithGroups_failure_tolerant (users : List User) (groups : List Group)
    (lm lm' : String → Except String (List User))
    (h : ∀ g ∈ groups, lm' g.id = lm g.id ∨
      ((∃ e, lm g.id = .error e) ∧ lm' g.id = .ok [])) :
    getUsersWithGroups users groups lm = getUsersWithGroups users groups lm' ∧
    (getUsersWithGroups users groups lm).map (·.toUser) = users := by
  constructor
  · unfold getUsersWithGroups
    rw [processGroups_congr lm lm' groups _ h]
  · simp only [getUsersWithGroups, List.map_map]
    exact List.map_id users

theorem getUsersWithGroups_failure_tolerant_witness :
    getUsersWithGroups [⟨"u1", "alice", "", true, none, none⟩]
        [⟨"g1", "grp1", none⟩, ⟨"g2", "grp2", none⟩]
        (fun gid => if gid = "g1"
          then Except.ok [⟨"u1", "alice", "", true, none, none⟩]
          else Except.error "boom") =
      getUsersWithGroups [⟨"u1", "alice", "", true, none, none⟩]
        [⟨"g1", "grp1", none⟩, ⟨"g2", "grp2", none⟩]
        (fun gid => if gid = "g1"
          then Except.ok [⟨"u1", "alice", "", true, none, none⟩]
          else Except.ok []) ∧
    (getUsersWithGroups [⟨"u1", "alice", "", true, none, none⟩]
        [⟨"g1", "grp1", none⟩, ⟨"g2", "grp2", none⟩]
        (fun gid => if gid = "g1"
          then Except.ok [⟨"u1", "alice", "", true, none, none⟩]
          else Except.error "boom")).map (·.toUser) =
      [⟨"u1", "alice", "", true, none, none⟩] := by
  exact getUsersWithGroups_failure_tolerant
    [⟨"u1", "alice", "", true, none, none⟩]
    [⟨"g1", "grp1", none⟩, ⟨"g2", "grp2", none⟩]
    (fun gid => if gid = "g1"
      then Except.ok [⟨"u1", "alice", "", true, none, none⟩]
      else Except.error "boom")
    (fun gid => if gid = "g1"
      then Except.ok [⟨"u1", "alice", "", true, none, none⟩]
      else Except.ok [])
    (by
      intro g hg
      rcases List.mem_cons.mp hg with rfl | hg2
      · left; rfl
      · rcases List.mem_cons.mp hg2 with rfl | h3
        · right; exact ⟨⟨"boom", rfl⟩, rfl⟩
        · simp at h3)

theorem renderGroups_cons_none (L : MappingLoader) (a : Group) (rest : List Group)
    (h : L.resolveGroup a.name = none) :
    renderGroups L (a :: rest) = renderGroups L rest := by
  simp [renderGroups, h]

theorem renderGroups_cons_some (L : MappingLoader) (a : Group) (rest : List Group)
    (r : ResolvedGroupMapping) (h : L.resolveGroup a.name = some r) :
    renderGroups L (a :: rest) =
      (⟨r.octeliumGroup, r.displayName, r.policies⟩ :: (renderGroups L rest).1,
        (a.name, r) :: (renderGroups L rest).2) := by
  simp [renderGroups, h]

theorem renderGroups_doc_of_mem (L : MappingLoader) (raws : List Group)
    (g : String) (r : ResolvedGroupMapping)
    (h : (g, r) ∈ (renderGroups L raws).2) :
    (∃ og ∈ (renderGroups L raws).1, og.name = r.octeliumGroup) ∧
    L.resolveGroup g = some r := by
  induction raws with
  | nil => simp [renderGroups] at h
  | cons a rest ih =>
    cases hres : L.resolveGroup a.name with
    | none =>
      rw [renderGroups_cons_none L a rest hres] at h ⊢
      exact ih h
    | some r0 =>
      rw [renderGroups_cons_some L a rest r0 hres] at h ⊢
      rcases List.mem_cons.mp h with heq | htail
      · obtain ⟨rfl, rfl⟩ := Prod.mk.inj heq
        exact ⟨⟨⟨r.octeliumGroup, r.displayName, r.policies⟩,
          List.mem_cons_self _ _, rfl⟩, hres⟩
      · obtain ⟨⟨og, hog, hname⟩, hres'⟩ := ih htail
        exact ⟨⟨og, List.mem_cons_of_mem _ hog, hname⟩, hres'⟩

theorem renderGroups_resolve_none (L : MappingLoader) (raws : List Group) (g : String)
    (h : L.resolveGroup g = none) :
    recordGet (renderGroups L raws).2 g = none := by
  induction raws with
  | nil => rfl
  | cons a rest ih =>
    cases hres : L.resolveGroup a.name with
    | none =>
      rw [renderGroups_cons_none L a rest hres]
      exact ih
    | some r0 =>
      rw [renderGroups_cons_some L a rest r0 hres]
      by_cases hag : a.name = g
      · subst hag
        rw [hres] at h
        exact absurd h (by simp)
      · simpa [recordGet, hag] using ih

/-- C4 counterexample: a raw group name whose resolution is absent can still
appear in a rendered user's group list, when it coincides with the target
name of a different resolved group: here raw group "b" is skipped
(sync: false) but raw group "a" renames to "b", so the user's rendered list
is ["b"]. -/
theorem renderUsers_skipped_name_cex :
    (MappingLoader.ofMapping (GroupMapping.mk
        [("a", ⟨some "b", none, none, none⟩), ("b", ⟨none, none, none, some false⟩)]
        none)).resolveGroup "b" = none ∧
    (renderUsers [⟨⟨"u1", "alice", "", true, none, none⟩, ["a", "b"]⟩]
        (renderGroups (MappingLoader.ofMapping (GroupMapping.mk
            [("a", ⟨some "b", none, none, none⟩), ("b", ⟨none, none, none, some false⟩)]
            none))
          [⟨"1", "a", none⟩, ⟨"2", "b", none⟩]).2).map (·.groups) = [["b"]] := by
  constructor <;> rfl

/-- C4 (amended): referential integrity holds — every group name in a
rendered user's group list appears as a group name in the rendered groups
document — and a raw group name whose resolution is absent contributes no
entry to the resolved map (it is dropped from every user's list); but such a
raw name can still occur as a string in a rendered list when it equals the
target name of a different resolved group. -/
theorem renderUsers_referential_integrity (users : List UserWithGroups)
    (raws : List Group) (L : MappingLoader) (u : OcteliumUser)
    (hu : u ∈ renderUsers users (renderGroups L raws).2) (t : String)
    (ht : t ∈ u.groups) :
    (∃ og ∈ (renderGroups L raws).1, og.name = t) ∧
    (∀ g, L.resolveGroup g = none → recordGet (renderGroups L raws).2 g = none) := by
  refine ⟨?_, fun g hg => renderGroups_resolve_none L raws g hg⟩
  rw [renderUsers, List.mem_map] at hu
  obtain ⟨uw, _, rfl⟩ := hu
  dsimp only at ht
  rw [List.mem_filterMap] at ht
  obtain ⟨g, _, hmap⟩ := ht
  rw [Option.map_eq_some'] at hmap
  obtain ⟨r, hrec, rfl⟩ := hmap
  exact (renderGroups_doc_of_mem L raws g r (recordGet_mem _ g r hrec)).1

theorem renderUsers_referential_integrity_witness :
    (⟨"alice", "HUMAN", "", ["administrators"]⟩ : OcteliumUser) ∈
      renderUsers [⟨⟨"u1", "alice", "", true, none, none⟩, ["admins", "guests"]⟩]
        (renderGroups (MappingLoader.ofMapping (GroupMapping.mk
            [("admins", ⟨some "administrators", none, some ["admin-policy"], none⟩)] none))
          [⟨"1", "admins", none⟩]).2 ∧
    "administrators" ∈ (⟨"alice", "HUMAN", "", ["administrators"]⟩ : OcteliumUser).groups ∧
    (∃ og ∈ (renderGroups (MappingLoader.ofMapping (GroupMapping.mk
        [("admins", ⟨some "administrators", none, some ["admin-policy"], none⟩)] none))
        [⟨"1", "admins", none⟩]).1, og.name = "administrators") := by
  refine ⟨by decide, by decide, ?_⟩
  exact (renderUsers_referential_integrity
    [⟨⟨"u1", "alice", "", true, none, none⟩, ["admins", "guests"]⟩]
    [⟨"1", "admins", none⟩]
    (MappingLoader.ofMapping (GroupMapping.mk
      [("admins", ⟨some "administrators", none, some ["admin-policy"], none⟩)] none))
    ⟨"alice", "HUMAN", "", ["administrators"]⟩ (by decide)
    "administrators" (by decide)).1

end IdpSync
